import Mathlib

/-!
Verification of the PNG utility module (`png_utils.js`): a shallow embedding of
its three core routines — `parseChunks`, `reverseFiltering` and `subImage` — as
executable Lean functions, together with theorems settling the specified
properties of chunk parsing, scanline defiltering and sub-image extraction.

Conventions of the embedding:
* JavaScript numbers that are always non-negative integers in the source are
  `Nat`; values that may be fractional (the `tileSize`/`margins` arguments of
  `subImage`) are `Rat`; signed byte reads are `Int`.
* A thrown `new Error(...)` and the host faults the code can trigger (an
  out-of-bounds `DataView` read, a property access on `undefined`) are the
  constructors of `JsError`; fallible routines return `Except JsError _`.
* `console.warn` is modelled as an event channel: the list of colour types
  warned about, returned alongside the parsed chunks.
-/

/-- Failure outcomes of the embedded routines.  `invalidPalette`,
`missingPalette`, `unexpectedFilterByte`, `incorrectBufferType`,
`invalidTileSize`, `invalidMargins` and `subImageError` stand for the
`throw new Error(...)` sites of the source (identified by their message);
`rangeError` stands for the host `RangeError` that `DataView.getUint32` /
`getUint8` raise on an out-of-bounds read, and `typeErrorUndefined` for the
host `TypeError` raised by a property access on `undefined`. -/
inductive JsError
  | invalidPalette
  | missingPalette
  | unexpectedFilterByte
  | incorrectBufferType
  | invalidTileSize
  | invalidMargins
  | subImageError
  | rangeError
  | typeErrorUndefined
  deriving DecidableEq

deriving instance DecidableEq for Except

/-- The seven header fields decoded from the IHDR chunk (`chunkInfo` in the
source).  `compressionMethod` is read with `getInt8`, hence signed. -/
structure HeaderInfo where
  widthPixels : Nat
  heightPixels : Nat
  bitDepth : Nat
  colourType : Nat
  compressionMethod : Int
  filterMethod : Nat
  interlaceMethod : Nat
  deriving DecidableEq

/-- A chunk record as pushed by `parseChunks`.  The `fourCC` tag is kept as its
four raw bytes (the source decodes them to a string only to compare against
ASCII literals, and UTF-8 decoding is injective on those).  `chunkInfo` is
present exactly on chunks parsed through the IHDR branch. -/
structure Chunk where
  fourCC : List Nat
  size : Nat
  data : List Nat
  offset : Nat
  crc : Nat
  chunkInfo : Option HeaderInfo
  deriving DecidableEq

/-- The four bytes of the ASCII tag `IHDR`. -/
def ihdrTag : List Nat := [73, 72, 68, 82]

/-- The four bytes of the ASCII tag `PLTE`. -/
def plteTag : List Nat := [80, 76, 84, 69]

/-- Big-endian 32-bit value assembled from the four bytes at `pos`, as
`DataView.getUint32` produces on a byte buffer. -/
def u32At (bytes : List Nat) (pos : Nat) : Nat :=
  bytes.getD pos 0 * 16777216 + bytes.getD (pos + 1) 0 * 65536 +
    bytes.getD (pos + 2) 0 * 256 + bytes.getD (pos + 3) 0

/-- Embedding of `dataView.getUint32(pos)`: the big-endian u32 when the four
bytes are inside the buffer, the host `RangeError` otherwise. -/
def getUint32 (bytes : List Nat) (pos : Nat) : Except JsError Nat :=
  if pos + 4 ≤ bytes.length then .ok (u32At bytes pos) else .error .rangeError

/-- Embedding of `dataView.getUint8(pos)`. -/
def getUint8 (bytes : List Nat) (pos : Nat) : Except JsError Nat :=
  if pos < bytes.length then .ok (bytes.getD pos 0) else .error .rangeError

/-- Embedding of `dataView.getInt8(pos)`: the byte reinterpreted as a signed
8-bit value. -/
def getInt8 (bytes : List Nat) (pos : Nat) : Except JsError Int :=
  if pos < bytes.length then
    .ok (if bytes.getD pos 0 < 128 then (bytes.getD pos 0 : Int)
         else (bytes.getD pos 0 : Int) - 256)
  else .error .rangeError

/-- The IHDR metadata decode of `parseChunks`: seven `DataView` reads at the
absolute stream offsets 16, 20, 24, 25, 26, 27, 28 (relative to the whole
stream, not to the chunk), in source order. -/
def decodeIHDRInfo (bytes : List Nat) : Except JsError HeaderInfo := do
  let w ← getUint32 bytes 16
  let h ← getUint32 bytes 20
  let bd ← getUint8 bytes 24
  let ct ← getUint8 bytes 25
  let cm ← getInt8 bytes 26
  let fm ← getUint8 bytes 27
  let im ← getUint8 bytes 28
  return { widthPixels := w, heightPixels := h, bitDepth := bd, colourType := ct,
           compressionMethod := cm, filterMethod := fm, interlaceMethod := im }

/-- The `switch (fourCC)` body of `parseChunks`, handling one chunk record.
The `tRNS` case of the source is byte-for-byte the same push as the default
case, so both are the final branch here.  The PLTE branch mirrors the source's
order: the divisibility check fires first; only then is
`chunks[0].chunkInfo.colourType` dereferenced, which on a missing first chunk
or a first chunk without header info is a `TypeError` (`typeErrorUndefined`).
The `console.warn` for colour types 0/4 appends the colour type to the warning
channel. -/
def processChunk (bytes : List Nat) (chunks : List Chunk) (warns : List Nat)
    (fourCC : List Nat) (size : Nat) (data : List Nat) (offset crc : Nat) :
    Except JsError (List Chunk × List Nat) :=
  if fourCC = ihdrTag then
    match decodeIHDRInfo bytes with
    | .error e => .error e
    | .ok info =>
        .ok (chunks ++ [{ fourCC := fourCC, size := size, data := data,
                          offset := offset, crc := crc, chunkInfo := some info }], warns)
  else if fourCC = plteTag then
    if size % 3 ≠ 0 then .error .invalidPalette
    else
      match chunks.head? with
      | none => .error .typeErrorUndefined
      | some c0 =>
        match c0.chunkInfo with
        | none => .error .typeErrorUndefined
        | some info =>
          if info.colourType = 3 ∧ size = 0 then .error .missingPalette
          else
            .ok (chunks ++ [{ fourCC := fourCC, size := size, data := data,
                              offset := offset, crc := crc, chunkInfo := none }],
                 warns ++ (if (info.colourType = 0 ∨ info.colourType = 4) ∧ size ≠ 0
                           then [info.colourType] else []))
  else
    .ok (chunks ++ [{ fourCC := fourCC, size := size, data := data,
                      offset := offset, crc := crc, chunkInfo := none }], warns)

/-- The `while (pos < arrayBuffer.byteLength)` loop of `parseChunks`.  Per
iteration: the declared length is read at `pos` (a `RangeError` if the length
field is truncated), the tag is `bytes.slice(pos+4, pos+8)`, the CRC is read at
`pos + 8 + size` (a `RangeError` when the declared data + CRC run past the end
of the buffer), the data is `bytes.slice(offset, offset+size)`, and the chunk
is processed; then the cursor advances past the CRC. -/
def parseChunksLoop (bytes : List Nat) (pos : Nat) (chunks : List Chunk)
    (warns : List Nat) : Except JsError (List Chunk × List Nat) :=
  if _h : pos < bytes.length then
    match getUint32 bytes pos with
    | .error e => .error e
    | .ok size =>
      let fourCC := (bytes.drop (pos + 4)).take 4
      let offset := pos + 8
      match getUint32 bytes (offset + size) with
      | .error e => .error e
      | .ok crc =>
        match processChunk bytes chunks warns fourCC size
            ((bytes.drop offset).take size) offset crc with
        | .error e => .error e
        | .ok (chunks2, warns2) => parseChunksLoop bytes (offset + size + 4) chunks2 warns2
  else .ok (chunks, warns)
termination_by bytes.length - pos
decreasing_by omega

/-- Embedding of `parseChunks`: walk the stream from offset 8 (past the 8-byte
signature) and return the chunk records together with the warning channel. -/
def parseChunks (bytes : List Nat) : Except JsError (List Chunk × List Nat) :=
  parseChunksLoop bytes 8 [] []

/-- Big-endian 4-byte encoding of a u32, used to build concrete streams. -/
def u32bytes (n : Nat) : List Nat :=
  [n / 16777216 % 256, n / 65536 % 256, n / 256 % 256, n % 256]

/-- The fixed 8-byte PNG signature skipped by the parser. -/
def sig8 : List Nat := [137, 80, 78, 71, 13, 10, 26, 10]

/-- Bytes per scanline, as computed in `reverseFiltering`:
`(widthPixels * 4) + 1`. -/
def widthBytes (w : Nat) : Nat := w * 4 + 1

/-- Number of scanlines the `reverseFiltering` loop starts on a payload of
`len` bytes: for `widthPixels ≥ 1` the loop's cursor meets `i % widthBytes = 0`
exactly at the multiples of `widthBytes`, so line `ln` starts iff
`ln * widthBytes < len`. -/
def numLines (len w : Nat) : Nat := (len + (widthBytes w - 1)) / widthBytes w

/-- Byte offset of pixel group `k` of the scanline starting at offset `L`
(one past the filter byte, then 4 bytes per group). -/
def pixStart (L k : Nat) : Nat := L + 1 + 4 * k

/-- Embedding of `array.slice(i, i + 4)`: the (up to four) payload bytes of
one filtered pixel group. -/
def curPix (arr : List Nat) (pos : Nat) : List Nat := (arr.drop pos).take 4

/-- Number of pixel groups the loop processes for the scanline starting at
offset `L`: the line-start iteration always processes group 0 (with a possibly
truncated slice), and group `k ≥ 1` is processed iff its offset `L + 1 + 4k`
is still inside the payload, up to the `widthPixels` groups of a full line. -/
def numPixels (len w L : Nat) : Nat := 1 + min (w - 1) ((len - (L + 1) + 3) / 4 - 1)

/-- Embedding of JavaScript `array.map((x, idx) => f idx x)` on a byte list. -/
def jsMapIdx (f : Nat → Nat → Nat) (l : List Nat) : List Nat :=
  (List.range l.length).map fun idx => f idx (l.getD idx 0)

/-- The Paeth predictor selection exactly as in the `case 4` branch:
`p = a + b - c` (signed), `pa = |p-a|`, `pb = |p-b|`, `pc = |p-c|`, and the
prediction is `a` when `pa ≤ pb ∧ pa ≤ pc`, else `b` when `pb ≤ pc`, else
`c`. -/
def paethPredictor (a b c : Nat) : Nat :=
  let p : Int := (a : Int) + (b : Int) - (c : Int)
  let pa : Int := |p - (a : Int)|
  let pb : Int := |p - (b : Int)|
  let pc : Int := |p - (c : Int)|
  if pa ≤ pb ∧ pa ≤ pc then a else if pb ≤ pc then b else c

/-- Reconstruction of one pixel group: the `switch (filterByte)` of
`reverseFiltering` for the group at column `k` of line `ln` starting at offset
`L`.  `acc` is the list of groups already reconstructed on this line (so
`acc.getD (k-1)` is the source's `prevPixel = res[lineNum][pixelCount]`, only
ever dereferenced when `k > 0`), and `prevRow` the reconstructed groups of the
previous line (`prevRow.getD k` is `res[lineNum-1][pixelCount+1]`, and
`prevRow.getD (k-1)` is `res[lineNum-1][pixelCount]` in the Paeth case).  The
final catch-all arm is unreachable: the filter byte is checked against
`{0,...,4}` before any group of the line is built. -/
def reconPixel (arr : List Nat) (L ln k fb : Nat) (acc prevRow : List (List Nat)) :
    List Nat :=
  let cur := curPix arr (pixStart L k)
  let prevPixel : List Nat := acc.getD (k - 1) []
  let prevLinePixel : List Nat := if ln > 0 then prevRow.getD k [] else [0, 0, 0, 0]
  match fb with
  | 0 => cur
  | 1 =>
    if k > 0 then jsMapIdx (fun idx x => (x + prevPixel.getD idx 0) % 256) cur
    else cur
  | 2 => jsMapIdx (fun idx x => (x + prevLinePixel.getD idx 0) % 256) cur
  | 3 =>
    jsMapIdx (fun idx x =>
      (x + ((if k > 0 then prevPixel.getD idx 0 else 0) +
            (if ln > 0 then prevLinePixel.getD idx 0 else 0)) / 2) % 256) cur
  | 4 =>
    jsMapIdx (fun idx x =>
      let a : Nat := if k > 0 then prevPixel.getD idx 0 else 0
      let b : Nat := if ln > 0 then prevLinePixel.getD idx 0 else 0
      let c : Nat := if k > 0 ∧ ln > 0 then (prevRow.getD (k - 1) []).getD idx 0 else 0
      (x + paethPredictor a b c) % 256) cur
  | _ => cur

/-- The pixel groups of one scanline after `n` loop iterations: each iteration
appends the reconstruction of the next group, which may refer back to the
groups built so far. -/
def defilterRowAux (arr : List Nat) (L ln fb : Nat) (prevRow : List (List Nat)) :
    Nat → List (List Nat)
  | 0 => []
  | n + 1 =>
    let acc := defilterRowAux arr L ln fb prevRow n
    acc ++ [reconPixel arr L ln n fb acc prevRow]

/-- All pixel groups of the scanline starting at offset `L`. -/
def defilterRow (arr : List Nat) (w L ln fb : Nat) (prevRow : List (List Nat)) :
    List (List Nat) :=
  defilterRowAux arr L ln fb prevRow (numPixels arr.length w L)

/-- One line of the `reverseFiltering` loop: read the filter byte at the line
start, reject it unless it is one of `0..4` (the `switch` default throws
`"Unexpected filter byte."`), and otherwise append the row — the filter byte
kept as the first logical entry, paired with the reconstructed pixel groups. -/
def lineStep (arr : List Nat) (w : Nat) (rows : List (Nat × List (List Nat)))
    (ln : Nat) : Except JsError (List (Nat × List (List Nat))) :=
  let L := ln * widthBytes w
  let fb := arr.getD L 0
  if fb ≤ 4 then
    .ok (rows ++ [(fb, defilterRow arr w L ln fb
      (if ln > 0 then (rows.getD (ln - 1) (0, [])).2 else []))])
  else .error .unexpectedFilterByte

/-- Embedding of `reverseFiltering` on a decompressed payload `arr` with image
width `w` (the source reads `w` from `this.data[0].chunkInfo.widthPixels`; here
it is a parameter).  A row of the source's result array is
`[filterByte, pixel, pixel, ...]`; here it is the pair of the filter byte and
the pixel-group list.  Any filter byte outside `{0,...,4}` aborts the whole
reconstruction. -/
def reverseFiltering (arr : List Nat) (w : Nat) :
    Except JsError (List (Nat × List (List Nat))) :=
  (List.range (numLines arr.length w)).foldlM (lineStep arr w) []

/-- The first `n` rows of the reconstruction when no filter byte is rejected
(the pure content of the `reverseFiltering` loop). -/
def buildRows (arr : List Nat) (w : Nat) : Nat → List (Nat × List (List Nat))
  | 0 => []
  | n + 1 =>
    let rows := buildRows arr w n
    let L := n * widthBytes w
    let fb := arr.getD L 0
    rows ++ [(fb, defilterRow arr w L n fb
      (if n > 0 then (rows.getD (n - 1) (0, [])).2 else []))]

/-- Channel `idx` of pixel group `pc` of row `ln` of a reconstructed grid. -/
def channelAt (grid : List (Nat × List (List Nat))) (ln pc idx : Nat) : Nat :=
  (((grid.getD ln (0, [])).2.getD pc []).getD idx 0)

/-- Truncation toward zero of a JavaScript number, as `ToIntegerOrInfinity`
performs on the (finite, rational) values reachable here.  The numerator and
denominator of a `Rat` are coprime with positive denominator, so integer
division of the numerator by the denominator truncates toward zero. -/
def jsTrunc (q : Rat) : Int := q.num.tdiv (q.den : Int)

/-- Ceiling of a JavaScript number, giving the iteration count of the
`for (let i = yMargin; i < tileHeight + yMargin; i++)` loop: the loop body
runs `max(⌈tileHeight⌉, 0)` times. -/
def jsCeil (q : Rat) : Int := -((-q.num).fdiv (q.den : Int))

/-- Embedding of a JavaScript indexed array read `l[q]`: an element for an
integral index within bounds, `undefined` (here `none`) otherwise. -/
def jsIndex {α : Type} (l : List α) (q : Rat) : Option α :=
  if q.den = 1 ∧ 0 ≤ q.num then l.get? q.num.toNat else none

/-- Resolution of one `Array.prototype.slice` argument against a list of
length `len`: truncate toward zero, then clamp — negative values count from
the end. -/
def jsSliceBound (len : Nat) (q : Rat) : Nat :=
  let r := jsTrunc q
  if r < 0 then ((len : Int) + r).toNat else min r.toNat len

/-- Embedding of `l.slice(s, e)` with possibly fractional or negative
JavaScript arguments. -/
def jsSlice {α : Type} (l : List α) (s e : Rat) : List α :=
  (l.take (jsSliceBound l.length e)).drop (jsSliceBound l.length s)

/-- One iteration of the extraction loop of `subImage`: index row
`yMargin + t` (an undefined access — none — is the `TypeError` the source
catches and rewraps as `subImageError`) and slice columns
`[xMargin + 1, xMargin + 1 + tileWidth)` of it. -/
def subImageStep {α : Type} (imageDataBuffer : List (List α))
    (tileX xMargin yMargin : Rat) (acc : List (Nat ⊕ List α)) (t : Nat) :
    Except JsError (List (Nat ⊕ List α)) :=
  match jsIndex imageDataBuffer (yMargin + (t : Rat)) with
  | some row => .ok (acc ++ [Sum.inr (jsSlice row (xMargin + 1) (xMargin + 1 + tileX))])
  | none => .error .subImageError

/-- Embedding of `subImage`.  The `Array.isArray` and `typeof ... 'number'`
dynamic-type guards are satisfied by construction in this typed embedding
(`incorrectBufferType` and `invalidMargins` are unreachable); the reachable
part of the `tileSize` validation is the positivity test — note the source
never checks integrality.  The loop runs `max(ceil(tileHeight), 0)` times,
and `slice` itself never faults, so column overruns do not error.  The result
is the scalar placeholder `0` followed by the row slices. -/
def subImage {α : Type} (imageDataBuffer : List (List α))
    (tileX tileY xMargin yMargin : Rat) : Except JsError (List (Nat ⊕ List α)) :=
  if ¬(0 < tileX ∧ 0 < tileY) then .error .invalidTileSize
  else
    (List.range (jsCeil tileY).toNat).foldlM
      (subImageStep imageDataBuffer tileX xMargin yMargin) [Sum.inl 0]

/-! ### Basic facts about the scanline framing -/

theorem widthBytes_pos (w : Nat) : 0 < widthBytes w := by
  unfold widthBytes; omega

theorem lt_numLines_iff (len w ln : Nat) :
    ln < numLines len w ↔ ln * widthBytes w < len := by
  unfold numLines
  rw [Nat.lt_iff_add_one_le, Nat.le_div_iff_mul_le (widthBytes_pos w), Nat.succ_mul]
  have := widthBytes_pos w
  omega

theorem numLines_eq (w h : Nat) : numLines (h * widthBytes w) w = h := by
  unfold numLines
  rw [Nat.mul_comm, Nat.mul_add_div (widthBytes_pos w),
    Nat.div_eq_of_lt (by have := widthBytes_pos w; omega)]
  omega

theorem numPixels_eq (len w L : Nat) (hw : 0 < w) (hfit : L + widthBytes w ≤ len) :
    numPixels len w L = w := by
  unfold widthBytes at hfit
  have hX : w ≤ (len - (L + 1) + 3) / 4 :=
    (Nat.le_div_iff_mul_le (by norm_num)).mpr (by omega)
  unfold numPixels
  have : min (w - 1) ((len - (L + 1) + 3) / 4 - 1) = w - 1 :=
    Nat.min_eq_left (by omega)
  omega

/-! ### Structure of the reconstructed rows -/

theorem jsMapIdx_length (f : Nat → Nat → Nat) (l : List Nat) :
    (jsMapIdx f l).length = l.length := by
  simp [jsMapIdx]

theorem jsMapIdx_getD (f : Nat → Nat → Nat) (l : List Nat) (idx : Nat) (d : Nat)
    (h : idx < l.length) : (jsMapIdx f l).getD idx d = f idx (l.getD idx 0) := by
  unfold jsMapIdx
  rw [List.getD_eq_getElem?_getD, List.getElem?_map, List.getElem?_range h]
  rfl

theorem curPix_length (arr : List Nat) (pos : Nat) (h : pos + 4 ≤ arr.length) :
    (curPix arr pos).length = 4 := by
  simp [curPix]; omega

theorem curPix_getD (arr : List Nat) (pos idx : Nat) (hidx : idx < 4) :
    (curPix arr pos).getD idx 0 = arr.getD (pos + idx) 0 := by
  unfold curPix
  rw [List.getD_eq_getElem?_getD, List.getElem?_take, if_pos hidx, List.getElem?_drop,
    List.getD_eq_getElem?_getD]

theorem reconPixel_length (arr : List Nat) (L ln k fb : Nat)
    (acc prevRow : List (List Nat)) :
    (reconPixel arr L ln k fb acc prevRow).length = (curPix arr (pixStart L k)).length := by
  rcases fb with _ | _ | _ | _ | _ | fb <;>
    simp only [reconPixel, jsMapIdx_length] <;> split <;> simp [jsMapIdx_length]

theorem reconPixel_mem (arr : List Nat) (L ln k fb : Nat)
    (acc prevRow : List (List Nat)) (v : Nat)
    (hv : v ∈ reconPixel arr L ln k fb acc prevRow) : v < 256 ∨ v ∈ arr := by
  have hcur : ∀ x ∈ curPix arr (pixStart L k), x ∈ arr := by
    intro x hx
    exact List.drop_subset _ _ (List.take_subset _ _ hx)
  have hmap : ∀ (f : Nat → Nat → Nat), (∀ i x, f i x < 256) →
      v ∈ jsMapIdx f (curPix arr (pixStart L k)) → v < 256 ∨ v ∈ arr := by
    intro f hf hv
    unfold jsMapIdx at hv
    obtain ⟨i, _, hi⟩ := List.mem_map.mp hv
    exact Or.inl (hi ▸ hf i _)
  rcases fb with _ | _ | _ | _ | _ | fb <;> simp only [reconPixel] at hv
  · exact Or.inr (hcur v hv)
  · split at hv
    · exact hmap _ (fun i x => Nat.mod_lt _ (by norm_num)) hv
    · exact Or.inr (hcur v hv)
  · exact hmap _ (fun i x => Nat.mod_lt _ (by norm_num)) hv
  · exact hmap _ (fun i x => Nat.mod_lt _ (by norm_num)) hv
  · exact hmap _ (fun i x => Nat.mod_lt _ (by norm_num)) hv
  · exact Or.inr (hcur v hv)

theorem defilterRowAux_length (arr : List Nat) (L ln fb : Nat)
    (prevRow : List (List Nat)) (n : Nat) :
    (defilterRowAux arr L ln fb prevRow n).length = n := by
  induction n with
  | zero => rfl
  | succ n ih => simp [defilterRowAux, ih]

theorem defilterRowAux_getD (arr : List Nat) (L ln fb : Nat)
    (prevRow : List (List Nat)) (n k : Nat) (hk : k < n) :
    (defilterRowAux arr L ln fb prevRow n).getD k [] =
      reconPixel arr L ln k fb (defilterRowAux arr L ln fb prevRow k) prevRow := by
  induction n with
  | zero => omega
  | succ n ih =>
    rw [defilterRowAux]
    rcases Nat.lt_or_ge k n with h | h
    · rw [List.getD_append _ _ _ _ (by rw [defilterRowAux_length]; exact h)]
      exact ih h
    · have hk : k = n := by omega
      subst hk
      rw [List.getD_append_right _ _ _ _ (by simp [defilterRowAux_length])]
      simp [defilterRowAux_length]

theorem defilterRowAux_getD_stable (arr : List Nat) (L ln fb : Nat)
    (prevRow : List (List Nat)) (n m k : Nat) (hk : k < m) (hm : m ≤ n) :
    (defilterRowAux arr L ln fb prevRow n).getD k [] =
      (defilterRowAux arr L ln fb prevRow m).getD k [] := by
  rw [defilterRowAux_getD _ _ _ _ _ _ _ (lt_of_lt_of_le hk hm),
    defilterRowAux_getD _ _ _ _ _ _ _ hk]

theorem defilterRowAux_mem (arr : List Nat) (L ln fb : Nat)
    (prevRow : List (List Nat)) (n : Nat) (px : List Nat)
    (hpx : px ∈ defilterRowAux arr L ln fb prevRow n) :
    ∃ k < n, px = reconPixel arr L ln k fb (defilterRowAux arr L ln fb prevRow k) prevRow := by
  induction n with
  | zero => simp [defilterRowAux] at hpx
  | succ n ih =>
    rw [defilterRowAux] at hpx
    rcases List.mem_append.mp hpx with h | h
    · obtain ⟨k, hk, hpx⟩ := ih h
      exact ⟨k, by omega, hpx⟩
    · exact ⟨n, by omega, List.mem_singleton.mp h⟩

theorem buildRows_length (arr : List Nat) (w n : Nat) :
    (buildRows arr w n).length = n := by
  induction n with
  | zero => rfl
  | succ n ih => simp [buildRows, ih]

theorem buildRows_getD (arr : List Nat) (w n ln : Nat) (hln : ln < n) :
    (buildRows arr w n).getD ln (0, []) =
      (arr.getD (ln * widthBytes w) 0,
       defilterRow arr w (ln * widthBytes w) ln (arr.getD (ln * widthBytes w) 0)
         (if ln > 0 then ((buildRows arr w ln).getD (ln - 1) (0, [])).2 else [])) := by
  induction n with
  | zero => omega
  | succ n ih =>
    rw [buildRows]
    rcases Nat.lt_or_ge ln n with h | h
    · rw [List.getD_append _ _ _ _ (by rw [buildRows_length]; exact h)]
      exact ih h
    · have hln : ln = n := by omega
      subst hln
      rw [List.getD_append_right _ _ _ _ (by simp [buildRows_length])]
      simp [buildRows_length]

theorem buildRows_getD_stable (arr : List Nat) (w n m ln : Nat)
    (hln : ln < m) (hm : m ≤ n) :
    (buildRows arr w n).getD ln (0, []) = (buildRows arr w m).getD ln (0, []) := by
  rw [buildRows_getD _ _ _ _ (lt_of_lt_of_le hln hm), buildRows_getD _ _ _ _ hln]

/-! ### The defiltering loop: success and failure -/

theorem lineStep_ok (arr : List Nat) (w : Nat) (rows : List (Nat × List (List Nat)))
    (ln : Nat) (h : arr.getD (ln * widthBytes w) 0 ≤ 4) :
    lineStep arr w rows ln =
      .ok (rows ++ [(arr.getD (ln * widthBytes w) 0,
        defilterRow arr w (ln * widthBytes w) ln (arr.getD (ln * widthBytes w) 0)
          (if ln > 0 then (rows.getD (ln - 1) (0, [])).2 else []))]) := by
  simp only [lineStep]
  rw [if_pos h]

theorem lineLoop_ok (arr : List Nat) (w n : Nat)
    (hfb : ∀ ln < n, arr.getD (ln * widthBytes w) 0 ≤ 4) :
    (List.range n).foldlM (lineStep arr w) ([] : List (Nat × List (List Nat))) =
      .ok (buildRows arr w n) := by
  induction n with
  | zero => rfl
  | succ n ih =>
    rw [List.range_succ, List.foldlM_append, ih (fun ln h => hfb ln (by omega))]
    show List.foldlM (lineStep arr w) (buildRows arr w n) [n] = _
    simp only [List.foldlM_cons, List.foldlM_nil]
    rw [lineStep_ok arr w _ n (hfb n (by omega))]
    rfl

theorem lineStep_err (arr : List Nat) (w : Nat) (rows : List (Nat × List (List Nat)))
    (ln : Nat) (h : 4 < arr.getD (ln * widthBytes w) 0) :
    lineStep arr w rows ln = .error .unexpectedFilterByte := by
  simp only [lineStep]
  rw [if_neg (by omega)]

theorem lineLoop_err (arr : List Nat) (w n : Nat)
    (hbad : ∃ ln, ln < n ∧ 4 < arr.getD (ln * widthBytes w) 0) :
    (List.range n).foldlM (lineStep arr w) ([] : List (Nat × List (List Nat))) =
      .error .unexpectedFilterByte := by
  revert hbad
  induction n with
  | zero =>
    rintro ⟨ln, h, _⟩
    omega
  | succ n ih =>
    rintro ⟨ln, hln, hb⟩
    by_cases hall : ∀ m < n, arr.getD (m * widthBytes w) 0 ≤ 4
    · have hlnn : ln = n := by
        by_contra h2
        exact absurd (hall ln (by omega)) (by omega)
      rw [hlnn] at hb
      rw [List.range_succ, List.foldlM_append, lineLoop_ok arr w n hall]
      show List.foldlM (lineStep arr w) (buildRows arr w n) [n] = _
      simp only [List.foldlM_cons, List.foldlM_nil]
      rw [lineStep_err arr w _ n hb]
      rfl
    · push_neg at hall
      obtain ⟨m, hm, hb2⟩ := hall
      rw [List.range_succ, List.foldlM_append, ih ⟨m, hm, by omega⟩]
      rfl

theorem reverseFiltering_eq_ok (arr : List Nat) (w : Nat)
    (hfb : ∀ ln < numLines arr.length w, arr.getD (ln * widthBytes w) 0 ≤ 4) :
    reverseFiltering arr w = .ok (buildRows arr w (numLines arr.length w)) :=
  lineLoop_ok arr w _ hfb

theorem reverseFiltering_ok_elim (arr : List Nat) (w : Nat)
    (g : List (Nat × List (List Nat))) (hok : reverseFiltering arr w = .ok g) :
    (∀ ln < numLines arr.length w, arr.getD (ln * widthBytes w) 0 ≤ 4) ∧
      g = buildRows arr w (numLines arr.length w) := by
  by_cases hall : ∀ ln < numLines arr.length w, arr.getD (ln * widthBytes w) 0 ≤ 4
  · refine ⟨hall, ?_⟩
    rw [reverseFiltering_eq_ok arr w hall] at hok
    exact (Except.ok.inj hok).symm
  · push_neg at hall
    obtain ⟨ln, hln, hb⟩ := hall
    rw [reverseFiltering, lineLoop_err arr w _ ⟨ln, hln, hb⟩] at hok
    exact absurd hok (by simp)

/-! ### Filter type 0: identity reconstruction -/

theorem defilterRowAux_fb0 (arr : List Nat) (L ln : Nat) (prevRow : List (List Nat))
    (m : Nat) :
    defilterRowAux arr L ln 0 prevRow m =
      (List.range m).map fun k => curPix arr (pixStart L k) := by
  induction m with
  | zero => rfl
  | succ m ih =>
    simp only [defilterRowAux]
    rw [ih, List.range_succ, List.map_append]
    rfl

theorem buildRows_fb0 (arr : List Nat) (w h : Nat) (hw : 0 < w)
    (hlen : arr.length = h * widthBytes w)
    (hfb : ∀ ln < h, arr.getD (ln * widthBytes w) 0 = 0) :
    ∀ n, n ≤ h → buildRows arr w n = (List.range n).map fun ln =>
      (0, (List.range w).map fun k => curPix arr (pixStart (ln * widthBytes w) k)) := by
  intro n
  induction n with
  | zero => intro _; rfl
  | succ n ih =>
    intro hn
    have hfit : n * widthBytes w + widthBytes w ≤ arr.length := by
      rw [hlen]
      have := Nat.mul_le_mul_right (widthBytes w) (show n + 1 ≤ h by omega)
      rw [Nat.succ_mul] at this
      omega
    simp only [buildRows]
    rw [ih (by omega), hfb n (by omega), defilterRow,
      numPixels_eq arr.length w _ hw hfit, defilterRowAux_fb0,
      List.range_succ, List.map_append]
    rfl

/-- C2: on a well-framed payload all of whose scanline filter bytes are 0,
defiltering is the identity transform — every output row is its filter byte
`0` followed by the row's input 4-byte pixel groups, unchanged. -/
theorem defilter_filter_zero_identity (arr : List Nat) (w h : Nat) (hw : 0 < w)
    (hlen : arr.length = h * widthBytes w)
    (hfb : ∀ ln < h, arr.getD (ln * widthBytes w) 0 = 0) :
    reverseFiltering arr w = .ok ((List.range h).map fun ln =>
      (0, (List.range w).map fun k => curPix arr (pixStart (ln * widthBytes w) k))) := by
  have hnl : numLines arr.length w = h := by rw [hlen]; exact numLines_eq w h
  have hfb4 : ∀ ln < numLines arr.length w, arr.getD (ln * widthBytes w) 0 ≤ 4 := by
    rw [hnl]
    intro ln hln
    rw [hfb ln hln]
    omega
  rw [reverseFiltering_eq_ok arr w hfb4, hnl, buildRows_fb0 arr w h hw hlen hfb h le_rfl]

/-- Witness for C2, the concrete scenario of the specification: width 2, one
scanline with filter byte 0 and pixels `[10,20,30,255]`, `[40,50,60,255]`
defilters to exactly that grid. -/
theorem defilter_filter_zero_identity_witness :
    reverseFiltering [0, 10, 20, 30, 255, 40, 50, 60, 255] 2 =
      .ok [(0, [[10, 20, 30, 255], [40, 50, 60, 255]])] := by
  have h := defilter_filter_zero_identity [0, 10, 20, 30, 255, 40, 50, 60, 255] 2 1
    (by decide) (by decide) (by decide)
  exact h.trans (by decide)

/-! ### Claims C4 and C3 -/

/-- C4: defiltering (for a positive pixel width) fails with the
unexpected-filter-byte error — returning no grid at all — exactly on those
payloads in which some started scanline's first byte (the byte at a multiple
of `widthBytes` inside the payload) lies outside `{0,1,2,3,4}`; when every
scanline's filter byte is in `{0,1,2,3,4}` that failure cannot occur and a
grid is returned. -/
theorem defilter_filter_byte_errors (arr : List Nat) (w : Nat) (_hw : 0 < w) :
    ((∃ ln, ln * widthBytes w < arr.length ∧ 4 < arr.getD (ln * widthBytes w) 0) →
      reverseFiltering arr w = .error .unexpectedFilterByte) ∧
    ((∀ ln, ln * widthBytes w < arr.length → arr.getD (ln * widthBytes w) 0 ≤ 4) →
      ∃ grid, reverseFiltering arr w = .ok grid) := by
  constructor
  · rintro ⟨ln, hln, hb⟩
    exact lineLoop_err arr w _ ⟨ln, (lt_numLines_iff arr.length w ln).mpr hln, hb⟩
  · intro hall
    exact ⟨_, reverseFiltering_eq_ok arr w
      (fun ln hln => hall ln ((lt_numLines_iff arr.length w ln).mp hln))⟩

/-- Witness for C4: a payload whose single scanline has filter byte 7 is
rejected, and one with filter byte 0 is accepted. -/
theorem defilter_filter_byte_errors_witness :
    reverseFiltering [7, 1, 2, 3, 4] 1 = .error .unexpectedFilterByte ∧
    ∃ grid, reverseFiltering [0, 1, 2, 3, 4] 1 = .ok grid := by
  constructor
  · exact (defilter_filter_byte_errors [7, 1, 2, 3, 4] 1 (by decide)).1
      ⟨0, by decide, by decide⟩
  · refine (defilter_filter_byte_errors [0, 1, 2, 3, 4] 1 (by decide)).2 ?_
    intro ln hln
    have h0 : ln = 0 := by
      have h5 : ln * 5 < 5 := by simpa [widthBytes] using hln
      omega
    subst h0
    decide

theorem buildRows_shape (arr : List Nat) (w h : Nat) (hw : 0 < w)
    (hlen : arr.length = h * widthBytes w) :
    ∀ n, n ≤ h → ∀ row ∈ buildRows arr w n, row.2.length = w ∧
      ∀ px ∈ row.2, px.length = 4 ∧ ∀ v ∈ px, v < 256 ∨ v ∈ arr := by
  intro n
  induction n with
  | zero =>
    intro _ row hrow
    simp [buildRows] at hrow
  | succ n ih =>
    intro hn row hrow
    have hfit : n * widthBytes w + widthBytes w ≤ arr.length := by
      rw [hlen]
      have := Nat.mul_le_mul_right (widthBytes w) (show n + 1 ≤ h by omega)
      rw [Nat.succ_mul] at this
      omega
    simp only [buildRows] at hrow
    rcases List.mem_append.mp hrow with h1 | h1
    · exact ih (by omega) row h1
    · have hrow2 := List.mem_singleton.mp h1
      subst hrow2
      refine ⟨?_, ?_⟩
      · show (defilterRow arr w (n * widthBytes w) n _ _).length = w
        rw [defilterRow, defilterRowAux_length, numPixels_eq arr.length w _ hw hfit]
      · intro px hpx
        rw [defilterRow] at hpx
        obtain ⟨k, hk, hpxe⟩ := defilterRowAux_mem _ _ _ _ _ _ _ hpx
        have hkw : k < w := by rwa [numPixels_eq arr.length w _ hw hfit] at hk
        refine ⟨?_, ?_⟩
        · rw [hpxe, reconPixel_length, curPix_length]
          show pixStart (n * widthBytes w) k + 4 ≤ arr.length
          have h5 : pixStart (n * widthBytes w) k = n * widthBytes w + 1 + 4 * k := rfl
          have h6 : widthBytes w = w * 4 + 1 := rfl
          omega
        · intro v hv
          exact reconPixel_mem _ _ _ _ _ _ _ _ (hpxe ▸ hv)

/-- C3: on a well-framed payload (`heightPixels` scanlines of
`1 + 4 * widthPixels` bytes each) of bytes whose filter bytes all lie in
`{0,1,2,3,4}`, the reconstructed grid has exactly `heightPixels` rows, every
row carries its filter byte followed by exactly `widthPixels` pixel groups,
and every channel of every group lies in `[0, 255]`. -/
theorem defilter_grid_shape (arr : List Nat) (w h : Nat) (hw : 0 < w) (_hh : 0 < h)
    (hlen : arr.length = h * widthBytes w)
    (hbytes : ∀ b ∈ arr, b < 256)
    (hfb : ∀ ln < h, arr.getD (ln * widthBytes w) 0 ≤ 4) :
    ∃ grid, reverseFiltering arr w = .ok grid ∧ grid.length = h ∧
      ∀ row ∈ grid, row.2.length = w ∧
        ∀ px ∈ row.2, px.length = 4 ∧ ∀ v ∈ px, v ≤ 255 := by
  have hnl : numLines arr.length w = h := by rw [hlen]; exact numLines_eq w h
  refine ⟨buildRows arr w h, ?_, buildRows_length arr w h, ?_⟩
  · rw [reverseFiltering_eq_ok arr w (by rw [hnl]; exact hfb), hnl]
  · intro row hrow
    obtain ⟨h1, h2⟩ := buildRows_shape arr w h hw hlen h le_rfl row hrow
    refine ⟨h1, fun px hpx => ?_⟩
    obtain ⟨h3, h4⟩ := h2 px hpx
    refine ⟨h3, fun v hv => ?_⟩
    rcases h4 v hv with h5 | h5
    · omega
    · have := hbytes v h5
      omega

/-- Witness for C3: a two-scanline width-1 payload using filter types 2 and 1
yields a 2-row grid of single 4-byte pixel groups with in-range channels. -/
theorem defilter_grid_shape_witness :
    ∃ grid, reverseFiltering [2, 1, 2, 3, 4, 1, 5, 6, 7, 8] 1 = .ok grid ∧
      grid.length = 2 ∧
      ∀ row ∈ grid, row.2.length = 1 ∧
        ∀ px ∈ row.2, px.length = 4 ∧ ∀ v ∈ px, v ≤ 255 :=
  defilter_grid_shape [2, 1, 2, 3, 4, 1, 5, 6, 7, 8] 1 2 (by decide) (by decide)
    (by decide) (by decide) (by decide)

/-! ### Claim C1: the Paeth filter -/

theorem paethPredictor_tie (a b c : Nat)
    (h1 : |((a : Int) + b - c) - a| = |((a : Int) + b - c) - b|)
    (h2 : |((a : Int) + b - c) - b| = |((a : Int) + b - c) - c|) :
    paethPredictor a b c = a := by
  simp only [paethPredictor]
  rw [if_pos ⟨le_of_eq h1, le_of_eq (h1.trans h2)⟩]

/-- C1: in a reconstructed grid of a well-framed payload, every channel of a
row whose filter-type byte is 4 satisfies the Paeth recurrence: it is
`(x + paethPredictor a b c) % 256` where `x` is the raw payload byte and `a`,
`b`, `c` are the already-reconstructed left, above and above-left channels of
the final grid, each taken as 0 on the first-column / first-row boundaries;
moreover the selector resolves to the left neighbour `a` whenever
`pa = pb = pc`. -/
theorem paeth_reconstruction (arr : List Nat) (w h : Nat)
    (grid : List (Nat × List (List Nat))) (ln pc idx : Nat)
    (hlen : arr.length = h * widthBytes w)
    (hok : reverseFiltering arr w = .ok grid)
    (hln : ln < h) (hpc : pc < w) (hidx : idx < 4)
    (hfb : (grid.getD ln (0, [])).1 = 4) :
    channelAt grid ln pc idx =
      (arr.getD (pixStart (ln * widthBytes w) pc + idx) 0 +
        paethPredictor
          (if pc = 0 then 0 else channelAt grid ln (pc - 1) idx)
          (if ln = 0 then 0 else channelAt grid (ln - 1) pc idx)
          (if pc = 0 ∨ ln = 0 then 0
           else channelAt grid (ln - 1) (pc - 1) idx)) % 256 ∧
    (∀ a b c : Nat,
      |((a : Int) + b - c) - a| = |((a : Int) + b - c) - b| →
      |((a : Int) + b - c) - b| = |((a : Int) + b - c) - c| →
      paethPredictor a b c = a) := by
  refine ⟨?_, fun a b c h1 h2 => paethPredictor_tie a b c h1 h2⟩
  have hw : 0 < w := by omega
  obtain ⟨hall, hg⟩ := reverseFiltering_ok_elim arr w grid hok
  have hnl : numLines arr.length w = h := by rw [hlen]; exact numLines_eq w h
  rw [hnl] at hg
  subst hg
  have hfit : ln * widthBytes w + widthBytes w ≤ arr.length := by
    rw [hlen]
    have := Nat.mul_le_mul_right (widthBytes w) (show ln + 1 ≤ h by omega)
    rw [Nat.succ_mul] at this
    omega
  have hnp : numPixels arr.length w (ln * widthBytes w) = w :=
    numPixels_eq arr.length w _ hw hfit
  have hgrow := buildRows_getD arr w h ln hln
  have hfbv : arr.getD (ln * widthBytes w) 0 = 4 := by
    rw [hgrow] at hfb
    exact hfb
  have hrowpix : ((buildRows arr w h).getD ln (0, [])).2 =
      defilterRowAux arr (ln * widthBytes w) ln 4
        (if ln > 0 then ((buildRows arr w ln).getD (ln - 1) (0, [])).2 else []) w := by
    rw [hgrow]
    show defilterRow arr w (ln * widthBytes w) ln (arr.getD (ln * widthBytes w) 0) _ = _
    rw [hfbv, defilterRow, hnp]
  have hfitpix : pixStart (ln * widthBytes w) pc + 4 ≤ arr.length := by
    have h5 : pixStart (ln * widthBytes w) pc = ln * widthBytes w + 1 + 4 * pc := rfl
    have h6 : widthBytes w = w * 4 + 1 := rfl
    omega
  have hcur : idx < (curPix arr (pixStart (ln * widthBytes w) pc)).length := by
    rw [curPix_length arr _ hfitpix]
    exact hidx
  have hchan : ∀ q, q < w → channelAt (buildRows arr w h) ln q idx =
      ((defilterRowAux arr (ln * widthBytes w) ln 4
        (if ln > 0 then ((buildRows arr w ln).getD (ln - 1) (0, [])).2 else []) w).getD
          q []).getD idx 0 := by
    intro q hq
    show (((buildRows arr w h).getD ln (0, [])).2.getD q []).getD idx 0 = _
    rw [hrowpix]
  rw [hchan pc hpc, defilterRowAux_getD _ _ _ _ _ _ _ hpc]
  simp only [reconPixel]
  rw [jsMapIdx_getD _ _ _ _ hcur, curPix_getD arr _ idx hidx]
  rcases Nat.eq_zero_or_pos pc with hpc0 | hpc0 <;>
    rcases Nat.eq_zero_or_pos ln with hln0 | hln0
  · subst hpc0; subst hln0
    simp
  · subst hpc0
    have hne : ¬ ln = 0 := by omega
    have hstab := buildRows_getD_stable arr w h ln (ln - 1) (by omega) (by omega)
    simp only [channelAt, hstab]
    simp [hln0, hne]
  · subst hln0
    have hne : ¬ pc = 0 := by omega
    rw [hchan (pc - 1) (by omega)]
    have hstabrow := defilterRowAux_getD_stable arr (0 * widthBytes w) 0 4
      (if 0 > 0 then ((buildRows arr w 0).getD (0 - 1) (0, [])).2 else []) w pc (pc - 1)
      (by omega) (le_of_lt hpc)
    rw [hstabrow]
    simp [hpc0, hne]
  · have hnepc : ¬ pc = 0 := by omega
    have hneln : ¬ ln = 0 := by omega
    have hstab := buildRows_getD_stable arr w h ln (ln - 1) (by omega) (by omega)
    rw [hchan (pc - 1) (by omega)]
    have hstabrow := defilterRowAux_getD_stable arr (ln * widthBytes w) ln 4
      (if ln > 0 then ((buildRows arr w ln).getD (ln - 1) (0, [])).2 else []) w pc (pc - 1)
      (by omega) (le_of_lt hpc)
    rw [hstabrow]
    simp only [channelAt, hstab]
    simp [hpc0, hln0, hnepc, hneln]

/-- Witness for C1: a two-row, width-1 payload filtered entirely with type 4;
the second row's first channel reconstructs to `(5 + 1) % 256 = 6`, the
predictor having selected the above neighbour. -/
theorem paeth_reconstruction_witness :
    reverseFiltering [4, 1, 2, 3, 4, 4, 5, 6, 7, 8] 1 =
      .ok [(4, [[1, 2, 3, 4]]), (4, [[6, 8, 10, 12]])] ∧
    channelAt [(4, [[1, 2, 3, 4]]), (4, [[6, 8, 10, 12]])] 1 0 0 = 6 := by
  refine ⟨by decide, ?_⟩
  have h := (paeth_reconstruction [4, 1, 2, 3, 4, 4, 5, 6, 7, 8] 1 2
    [(4, [[1, 2, 3, 4]]), (4, [[6, 8, 10, 12]])] 1 0 0
    (by decide) (by decide) (by decide) (by decide) (by decide) (by decide)).1
  exact h.trans (by decide)

/-! ### Chunk parsing: claims C5, C6 and C10 -/

theorem getUint32_ok (bytes : List Nat) (pos : Nat) (h : pos + 4 ≤ bytes.length) :
    getUint32 bytes pos = .ok (u32At bytes pos) := by
  rw [getUint32, if_pos h]

theorem getUint32_err (bytes : List Nat) (pos : Nat) (h : bytes.length < pos + 4) :
    getUint32 bytes pos = .error .rangeError := by
  rw [getUint32, if_neg (by omega)]

theorem parseChunksLoop_unfold (bytes : List Nat) (pos : Nat) (chunks : List Chunk)
    (warns : List Nat) :
    parseChunksLoop bytes pos chunks warns =
      if pos < bytes.length then
        match getUint32 bytes pos with
        | .error e => .error e
        | .ok size =>
          match getUint32 bytes (pos + 8 + size) with
          | .error e => .error e
          | .ok crc =>
            match processChunk bytes chunks warns ((bytes.drop (pos + 4)).take 4) size
                ((bytes.drop (pos + 8)).take size) (pos + 8) crc with
            | .error e => .error e
            | .ok (chunks2, warns2) =>
              parseChunksLoop bytes (pos + 8 + size + 4) chunks2 warns2
      else .ok (chunks, warns) := by
  rw [parseChunksLoop]
  rfl

/-- Counterexample for C5: a 16-byte stream (signature, then a chunk declaring
length 10 with only the tag present).  The parse aborts via the host range
error of the out-of-bounds CRC read — the embedded `DataView` fault — not via
any program-named malformed-stream error: the source contains no such throw
site. -/
theorem parse_truncation_counterexample :
    parseChunks [137, 80, 78, 71, 13, 10, 26, 10, 0, 0, 0, 10, 73, 68, 65, 84] =
      .error .rangeError := by
  rw [parseChunks, parseChunksLoop_unfold]
  decide

theorem parseChunksLoop_truncated (bytes : List Nat) (pos : Nat)
    (chunks : List Chunk) (warns : List Nat) (hpos : pos < bytes.length)
    (hover : bytes.length < pos + 12 + u32At bytes pos) :
    parseChunksLoop bytes pos chunks warns = .error .rangeError := by
  rw [parseChunksLoop_unfold, if_pos hpos]
  by_cases hsz : pos + 4 ≤ bytes.length
  · rw [getUint32_ok bytes pos hsz]
    simp only [getUint32_err bytes (pos + 8 + u32At bytes pos) (by omega)]
  · rw [getUint32_err bytes pos (by omega)]

/-- C5 amended: whenever the parse loop reaches a chunk whose declared data
plus 4-byte CRC run past the end of the buffer (including a truncated length
field), it aborts at that chunk — from any loop state, so at any chunk
position — with the host range error of the out-of-bounds u32 read, returning
no result; in particular a whole parse whose first chunk overruns yields that
error.  (An earlier chunk's own error, such as an invalid palette, aborts the
parse before a later truncated chunk is reached, which is why the general
statement is about the loop state that reaches the truncated chunk.) -/
theorem parse_truncation_aborts (bytes : List Nat) (pos : Nat)
    (chunks : List Chunk) (warns : List Nat) :
    (pos < bytes.length → bytes.length < pos + 12 + u32At bytes pos →
      parseChunksLoop bytes pos chunks warns = .error .rangeError) ∧
    (8 < bytes.length → bytes.length < 20 + u32At bytes 8 →
      parseChunks bytes = .error .rangeError) := by
  constructor
  · intro hpos hover
    exact parseChunksLoop_truncated bytes pos chunks warns hpos hover
  · intro hpos hover
    rw [parseChunks]
    exact parseChunksLoop_truncated bytes 8 [] [] hpos (by omega)

/-- Witness for C5's amended theorem: the loop aborts on a mid-stream chunk
declaring length 5 with only one data byte present, and a whole parse whose
first chunk declares length 1 with no CRC aborts as well. -/
theorem parse_truncation_aborts_witness :
    parseChunksLoop [0, 0, 0, 5, 73, 68, 65, 84, 9] 0 [] [] =
      .error .rangeError ∧
    parseChunks [137, 80, 78, 71, 13, 10, 26, 10, 0, 0, 0, 1, 73] =
      .error .rangeError := by
  constructor
  · exact (parse_truncation_aborts [0, 0, 0, 5, 73, 68, 65, 84, 9] 0 [] []).1
      (by decide) (by decide)
  · exact (parse_truncation_aborts
      [137, 80, 78, 71, 13, 10, 26, 10, 0, 0, 0, 1, 73] 0 [] []).2
      (by decide) (by decide)

/-- C6: handling of a PLTE chunk record when the first parsed chunk carries
IHDR header info.  Parsing the PLTE chunk fails with the invalid-palette error
exactly when its length is not a multiple of 3; otherwise it fails with the
missing-palette error exactly when the header's colour type is 3 and the
length is 0; and in the remaining cases the chunk is appended and the parse
loop continues at the next chunk, the warning channel gaining the colour type
exactly when it is 0 or 4 and the length is non-zero. -/
theorem plte_validation (bytes : List Nat) (pos : Nat) (chunks : List Chunk)
    (warns : List Nat) (c0 : Chunk) (info : HeaderInfo)
    (size : Nat) (data : List Nat) (offset crc : Nat)
    (hc0 : chunks.head? = some c0) (hinfo : c0.chunkInfo = some info) :
    ((processChunk bytes chunks warns plteTag size data offset crc =
        .error .invalidPalette) ↔ size % 3 ≠ 0) ∧
    (size % 3 = 0 →
      ((processChunk bytes chunks warns plteTag size data offset crc =
          .error .missingPalette) ↔ (info.colourType = 3 ∧ size = 0))) ∧
    (size % 3 = 0 → ¬(info.colourType = 3 ∧ size = 0) →
      processChunk bytes chunks warns plteTag size data offset crc =
        .ok (chunks ++ [⟨plteTag, size, data, offset, crc, none⟩],
          warns ++ if (info.colourType = 0 ∨ info.colourType = 4) ∧ size ≠ 0
                   then [info.colourType] else []) ∧
      (pos < bytes.length → pos + 4 ≤ bytes.length →
        (bytes.drop (pos + 4)).take 4 = plteTag → u32At bytes pos = size →
        pos + 8 + size + 4 ≤ bytes.length →
        parseChunksLoop bytes pos chunks warns =
          parseChunksLoop bytes (pos + 8 + size + 4)
            (chunks ++ [⟨plteTag, size, (bytes.drop (pos + 8)).take size, pos + 8,
              u32At bytes (pos + 8 + size), none⟩])
            (warns ++ if (info.colourType = 0 ∨ info.colourType = 4) ∧ size ≠ 0
                      then [info.colourType] else []))) := by
  have hbase : ∀ (d : List Nat) (o c : Nat),
      processChunk bytes chunks warns plteTag size d o c =
        if size % 3 ≠ 0 then .error .invalidPalette
        else if info.colourType = 3 ∧ size = 0 then .error .missingPalette
        else .ok (chunks ++ [⟨plteTag, size, d, o, c, none⟩],
          warns ++ if (info.colourType = 0 ∨ info.colourType = 4) ∧ size ≠ 0
                   then [info.colourType] else []) := by
    intro d o c
    rw [processChunk]
    simp only [if_neg (show ¬(plteTag = ihdrTag) by decide),
      if_pos (show plteTag = plteTag from rfl), hc0, hinfo, if_true]
  refine ⟨?_, ?_, ?_⟩
  · rw [hbase]
    by_cases h3 : size % 3 = 0
    · rw [if_neg (not_not_intro h3)]
      constructor
      · intro hcon
        split at hcon <;> simp at hcon
      · intro hcon
        exact absurd h3 hcon
    · rw [if_pos h3]
      simp [h3]
  · intro h3
    rw [hbase, if_neg (not_not_intro h3)]
    by_cases hct : info.colourType = 3 ∧ size = 0
    · rw [if_pos hct]
      simp [hct]
    · rw [if_neg hct]
      simp [hct]
  · intro h3 hct
    constructor
    · rw [hbase, if_neg (not_not_intro h3), if_neg hct]
    · intro hlt hsz4 hfour hsize hcrc
      rw [parseChunksLoop_unfold, if_pos hlt, getUint32_ok bytes pos (by omega)]
      simp only [hsize, getUint32_ok bytes (pos + 8 + size) (by omega), hfour,
        hbase ((bytes.drop (pos + 8)).take size) (pos + 8) (u32At bytes (pos + 8 + size)),
        if_neg (not_not_intro h3), if_neg hct]

/-- Witness for C6: a PLTE record of length 3 after an IHDR chunk of colour
type 0 is appended, the warning channel records colour type 0, and the parse
continues past the chunk. -/
theorem plte_validation_witness :
    parseChunksLoop [0, 0, 0, 3, 80, 76, 84, 69, 7, 8, 9, 0, 0, 0, 0] 0
      [⟨ihdrTag, 13, [], 16, 0, some ⟨2, 1, 8, 0, 0, 0, 0⟩⟩] [] =
    parseChunksLoop [0, 0, 0, 3, 80, 76, 84, 69, 7, 8, 9, 0, 0, 0, 0] 15
      [⟨ihdrTag, 13, [], 16, 0, some ⟨2, 1, 8, 0, 0, 0, 0⟩⟩,
       ⟨plteTag, 3, [7, 8, 9], 8, 0, none⟩] [0] := by
  have h := ((plte_validation [0, 0, 0, 3, 80, 76, 84, 69, 7, 8, 9, 0, 0, 0, 0] 0
      [⟨ihdrTag, 13, [], 16, 0, some ⟨2, 1, 8, 0, 0, 0, 0⟩⟩] []
      ⟨ihdrTag, 13, [], 16, 0, some ⟨2, 1, 8, 0, 0, 0, 0⟩⟩ ⟨2, 1, 8, 0, 0, 0, 0⟩
      3 [7, 8, 9] 8 0 rfl rfl).2.2 (by decide) (by decide)).2
    (by decide) (by decide) (by decide) (by decide) (by decide)
  exact h

theorem processChunk_default (bytes : List Nat) (chunks : List Chunk)
    (warns : List Nat) (fourCC : List Nat) (size : Nat) (data : List Nat)
    (offset crc : Nat) (hi : ¬(fourCC = ihdrTag)) (hp : ¬(fourCC = plteTag)) :
    processChunk bytes chunks warns fourCC size data offset crc =
      .ok (chunks ++ [⟨fourCC, size, data, offset, crc, none⟩], warns) := by
  rw [processChunk, if_neg hi, if_neg hp]

theorem processChunk_plte_noinfo (bytes : List Nat) (chunks : List Chunk)
    (warns : List Nat) (size : Nat) (data : List Nat) (offset crc : Nat)
    (h3 : size % 3 = 0)
    (hinfo : (chunks.head?).bind Chunk.chunkInfo = none) :
    processChunk bytes chunks warns plteTag size data offset crc =
      .error .typeErrorUndefined := by
  rw [processChunk, if_neg (show ¬(plteTag = ihdrTag) by decide),
    if_pos (show plteTag = plteTag from rfl), if_neg (not_not_intro h3)]
  cases hh : chunks.head? with
  | none => rfl
  | some c0 =>
    rw [hh] at hinfo
    simp only [Option.some_bind] at hinfo
    simp only [hinfo]

/-- Counterexample for C10: a stream whose first chunk is an IDAT and whose
PLTE chunk has length 4 fails with the named invalid-palette error — the
divisibility check fires before the header-info dereference, so no
undefined-field fault occurs on this stream. -/
theorem plte_no_ihdr_counterexample :
    parseChunks [137, 80, 78, 71, 13, 10, 26, 10,
                 0, 0, 0, 0, 73, 68, 65, 84, 0, 0, 0, 0,
                 0, 0, 0, 4, 80, 76, 84, 69, 9, 9, 9, 9, 0, 0, 0, 0] =
      .error .invalidPalette := by
  rw [parseChunks, parseChunksLoop_unfold]
  show parseChunksLoop [137, 80, 78, 71, 13, 10, 26, 10,
                 0, 0, 0, 0, 73, 68, 65, 84, 0, 0, 0, 0,
                 0, 0, 0, 4, 80, 76, 84, 69, 9, 9, 9, 9, 0, 0, 0, 0] 20
      [⟨[73, 68, 65, 84], 0, [], 16, 0, none⟩] [] = .error .invalidPalette
  rw [parseChunksLoop_unfold]
  decide

/-- C10 amended: on a stream whose first chunk is neither IHDR nor PLTE and
whose second chunk is a PLTE with length a multiple of 3 (the framing expressed
through the very reads the parser performs), the PLTE colour-type validation
dereferences the first chunk's absent header info: the lookup yields none and
the parse faults with the host type error instead of any named palette
error. -/
theorem plte_missing_header_fault (bytes : List Nat) (s1 s2 : Nat)
    (h1 : 12 ≤ bytes.length)
    (hs1 : u32At bytes 8 = s1)
    (ht1i : ¬((bytes.drop 12).take 4 = ihdrTag))
    (ht1p : ¬((bytes.drop 12).take 4 = plteTag))
    (hcrc1 : 20 + s1 ≤ bytes.length)
    (hs2 : u32At bytes (20 + s1) = s2)
    (hplte : (bytes.drop (24 + s1)).take 4 = plteTag)
    (h3 : s2 % 3 = 0)
    (hcrc2 : 32 + s1 + s2 ≤ bytes.length) :
    parseChunks bytes = .error .typeErrorUndefined := by
  have e1 : (8 : Nat) + 4 = 12 := rfl
  rw [parseChunks, parseChunksLoop_unfold, if_pos (show 8 < bytes.length by omega),
    getUint32_ok bytes 8 (by omega)]
  simp only [hs1, e1, getUint32_ok bytes (8 + 8 + s1) (by omega),
    processChunk_default bytes [] [] ((bytes.drop 12).take 4) s1
      ((bytes.drop (8 + 8)).take s1) (8 + 8) (u32At bytes (8 + 8 + s1)) ht1i ht1p]
  have e2 : 8 + 8 + s1 + 4 = 20 + s1 := by omega
  rw [e2, parseChunksLoop_unfold, if_pos (by omega),
    getUint32_ok bytes (20 + s1) (by omega)]
  have e3 : 20 + s1 + 4 = 24 + s1 := by omega
  have e4 : 20 + s1 + 8 + s2 = 28 + s1 + s2 := by omega
  have hinfo : ((([] : List Chunk) ++
      [(⟨(bytes.drop 12).take 4, s1, (bytes.drop (8 + 8)).take s1, 8 + 8,
        u32At bytes (8 + 8 + s1), none⟩ : Chunk)]).head?).bind Chunk.chunkInfo = none := rfl
  have hproc := processChunk_plte_noinfo bytes _ [] s2
    ((bytes.drop (20 + s1 + 8)).take s2) (20 + s1 + 8) (u32At bytes (28 + s1 + s2))
    h3 hinfo
  simp only [hs2, e3, e4, getUint32_ok bytes (28 + s1 + s2) (by omega), hplte, hproc]

/-- Witness for C10's amended theorem: an IDAT-first stream followed by an
empty PLTE chunk faults with the host type error. -/
theorem plte_missing_header_fault_witness :
    parseChunks [137, 80, 78, 71, 13, 10, 26, 10,
                 0, 0, 0, 0, 73, 68, 65, 84, 0, 0, 0, 0,
                 0, 0, 0, 0, 80, 76, 84, 69, 0, 0, 0, 0] =
      .error .typeErrorUndefined :=
  plte_missing_header_fault
    [137, 80, 78, 71, 13, 10, 26, 10,
     0, 0, 0, 0, 73, 68, 65, 84, 0, 0, 0, 0,
     0, 0, 0, 0, 80, 76, 84, 69, 0, 0, 0, 0] 0 0
    (by decide) (by decide) (by decide) (by decide) (by decide) (by decide)
    (by decide) (by decide) (by decide)

/-! ### Sub-image extraction: claims C7, C8 and C9 -/

theorem jsTrunc_intCast (z : Int) : jsTrunc (z : Rat) = z := by
  rw [jsTrunc, Rat.num_intCast, Rat.den_intCast]
  exact_mod_cast Int.tdiv_one z

theorem jsCeil_natCast (n : Nat) : jsCeil ((n : Nat) : Rat) = n := by
  rw [jsCeil, Rat.num_natCast, Rat.den_natCast]
  simp [Int.fdiv_one]

theorem jsIndex_natCast {α : Type} (l : List α) (n : Nat) :
    jsIndex l ((n : Nat) : Rat) = l.get? n := by
  rw [jsIndex, if_pos ⟨Rat.den_natCast n, by rw [Rat.num_natCast]; exact Int.natCast_nonneg n⟩,
    Rat.num_natCast, Int.toNat_natCast]

theorem subImageStep_some {α : Type} (grid : List (List α)) (tx xm ym : Rat)
    (acc : List (Nat ⊕ List α)) (t : Nat) (row : List α)
    (h : jsIndex grid (ym + (t : Rat)) = some row) :
    subImageStep grid tx xm ym acc t =
      .ok (acc ++ [Sum.inr (jsSlice row (xm + 1) (xm + 1 + tx))]) := by
  rw [subImageStep, h]

theorem subImageStep_none {α : Type} (grid : List (List α)) (tx xm ym : Rat)
    (acc : List (Nat ⊕ List α)) (t : Nat)
    (h : jsIndex grid (ym + (t : Rat)) = none) :
    subImageStep grid tx xm ym acc t = .error .subImageError := by
  rw [subImageStep, h]

theorem subImageLoop_ok {α : Type} (grid : List (List α)) (tx xm ym : Rat)
    (rowfn : Nat → List α) :
    ∀ n : Nat, (∀ t : Nat, t < n → jsIndex grid (ym + (t : Rat)) = some (rowfn t)) →
    ∀ acc, (List.range n).foldlM (subImageStep grid tx xm ym) acc =
      .ok (acc ++ (List.range n).map fun t =>
        Sum.inr (jsSlice (rowfn t) (xm + 1) (xm + 1 + tx))) := by
  intro n
  induction n with
  | zero =>
    intro _ acc
    simp only [List.range_zero, List.foldlM_nil, List.map_nil, List.append_nil]
    rfl
  | succ n ih =>
    intro hall acc
    rw [List.range_succ, List.foldlM_append, ih (fun t ht => hall t (by omega)) acc]
    show List.foldlM (subImageStep grid tx xm ym)
      (acc ++ (List.range n).map fun t =>
        Sum.inr (jsSlice (rowfn t) (xm + 1) (xm + 1 + tx))) [n] = _
    simp only [List.foldlM_cons, List.foldlM_nil]
    rw [subImageStep_some grid tx xm ym _ n (rowfn n) (hall n (by omega))]
    simp [List.range_succ]

theorem subImageLoop_err {α : Type} (grid : List (List α)) (tx xm ym : Rat) :
    ∀ n : Nat, (∃ t : Nat, t < n ∧ jsIndex grid (ym + (t : Rat)) = none) →
    ∀ acc, (List.range n).foldlM (subImageStep grid tx xm ym) acc =
      .error .subImageError := by
  intro n
  induction n with
  | zero =>
    rintro ⟨t, ht, _⟩
    omega
  | succ n ih =>
    rintro ⟨t, ht, hnone⟩ acc
    by_cases hall : ∀ s : Nat, s < n → ∃ row, jsIndex grid (ym + (s : Rat)) = some row
    · have htn : t = n := by
        by_contra h2
        obtain ⟨row, hrow⟩ := hall t (by omega)
        rw [hrow] at hnone
        exact absurd hnone (by simp)
      rw [htn] at hnone
      rw [List.range_succ, List.foldlM_append,
        subImageLoop_ok grid tx xm ym (fun s => (jsIndex grid (ym + (s : Rat))).getD [])
          n (fun s hs => by
            show jsIndex grid (ym + (s : Rat)) =
              some ((jsIndex grid (ym + (s : Rat))).getD [])
            obtain ⟨row, hrow⟩ := hall s hs
            rw [hrow]
            rfl) acc]
      show List.foldlM (subImageStep grid tx xm ym)
        (acc ++ (List.range n).map fun (s : Nat) =>
          Sum.inr (jsSlice ((jsIndex grid (ym + (s : Rat))).getD [])
            (xm + 1) (xm + 1 + tx))) [n] = _
      simp only [List.foldlM_cons, List.foldlM_nil]
      rw [subImageStep_none grid tx xm ym _ n hnone]
      rfl
    · push_neg at hall
      obtain ⟨s, hs, hsn⟩ := hall
      have hsnone : jsIndex grid (ym + (s : Rat)) = none := by
        cases hidx : jsIndex grid (ym + (s : Rat)) with
        | none => rfl
        | some row => exact absurd hidx (hsn row)
      rw [List.range_succ, List.foldlM_append, ih ⟨s, hs, hsnone⟩ acc]
      rfl

theorem subImageLoop_ok_or_err {α : Type} (grid : List (List α)) (tx xm ym : Rat) :
    ∀ (l : List Nat) (acc : List (Nat ⊕ List α)),
      (∃ v, l.foldlM (subImageStep grid tx xm ym) acc = .ok v) ∨
      l.foldlM (subImageStep grid tx xm ym) acc = .error .subImageError := by
  intro l
  induction l with
  | nil =>
    intro acc
    exact Or.inl ⟨acc, rfl⟩
  | cons a l ih =>
    intro acc
    rw [List.foldlM_cons]
    cases hidx : jsIndex grid (ym + (a : Rat)) with
    | some row =>
      rw [subImageStep_some grid tx xm ym acc a row hidx]
      exact ih _
    | none =>
      rw [subImageStep_none grid tx xm ym acc a hidx]
      exact Or.inr rfl

theorem jsIndex_inbounds {α : Type} (grid : List (List α)) (yn t : Nat)
    (h : yn + t < grid.length) :
    jsIndex grid ((yn : Rat) + (t : Rat)) = some (grid.getD (yn + t) []) := by
  have hc : (yn : Rat) + (t : Rat) = ((yn + t : Nat) : Rat) := by push_cast; ring
  rw [hc, jsIndex_natCast, List.get?_eq_getElem?, List.getElem?_eq_getElem h,
    List.getD_eq_getElem grid [] h]

theorem jsSlice_neg_margin {α : Type} (l : List α) (m w : Nat)
    (hm : 2 ≤ m) (hwm : w + 2 ≤ m) (hlen : m - 1 ≤ l.length) :
    jsSlice l (-(m : Rat) + 1) (-(m : Rat) + 1 + (w : Rat)) =
      (l.drop (l.length - (m - 1))).take w := by
  have hs : (-(m : Rat) + 1) = ((1 - (m : Int) : Int) : Rat) := by push_cast; ring
  have he : (-(m : Rat) + 1 + (w : Rat)) =
      ((1 - (m : Int) + (w : Int) : Int) : Rat) := by push_cast; ring
  rw [jsSlice, he, hs]
  simp only [jsSliceBound, jsTrunc_intCast]
  rw [if_pos (show (1 - (m : Int) + (w : Int)) < 0 by omega),
    if_pos (show (1 - (m : Int)) < 0 by omega)]
  have h1 : ((l.length : Int) + (1 - (m : Int) + (w : Int))).toNat =
      l.length - (m - 1) + w := by omega
  have h2 : ((l.length : Int) + (1 - (m : Int))).toNat = l.length - (m - 1) := by omega
  rw [h1, h2, List.drop_take]
  congr 1
  omega

theorem jsSlice_natCast {α : Type} (l : List α) (a b : Nat) :
    jsSlice l ((a : Nat) : Rat) ((b : Nat) : Rat) =
      (l.take (min b l.length)).drop (min a l.length) := by
  have h1 : jsTrunc ((a : Nat) : Rat) = (a : Int) := by
    have hc : ((a : Nat) : Rat) = (((a : Int)) : Rat) := by push_cast; ring
    rw [hc, jsTrunc_intCast]
  have h2 : jsTrunc ((b : Nat) : Rat) = (b : Int) := by
    have hc : ((b : Nat) : Rat) = (((b : Int)) : Rat) := by push_cast; ring
    rw [hc, jsTrunc_intCast]
  rw [jsSlice]
  simp only [jsSliceBound, h1, h2]
  rw [if_neg (by omega), if_neg (by omega)]
  simp [Int.toNat_natCast]

/-- Counterexample for C7: a 1-row grid of four pixel entries with a requested
tile width of 9 returns successfully with a silently truncated row — the
column overrun is clamped by `slice`, no wrapped bounds error is raised. -/
theorem subimage_column_overrun_counterexample :
    subImage (α := Nat) [[0, 1, 2, 3, 4]] 9 1 0 0 =
      .ok [Sum.inl 0, Sum.inr [1, 2, 3, 4]] := by
  rw [subImage, if_neg (not_not_intro ⟨by norm_num, by norm_num⟩)]
  have hc : (jsCeil (1 : Rat)).toNat = 1 := by
    rw [jsCeil, Rat.num_one, Rat.den_one]
    decide
  rw [hc, show List.range 1 = [0] from rfl]
  simp only [List.foldlM_cons, List.foldlM_nil]
  have hidx : jsIndex ([[0, 1, 2, 3, 4]] : List (List Nat))
      ((0 : Rat) + ((0 : Nat) : Rat)) = some [0, 1, 2, 3, 4] := by
    have h0 : (0 : Rat) + ((0 : Nat) : Rat) = (((0 : Nat)) : Rat) := by norm_num
    rw [h0, jsIndex_natCast]
    rfl
  rw [subImageStep_some _ _ _ _ _ _ _ hidx]
  have hs : jsSlice ([0, 1, 2, 3, 4] : List Nat) ((0 : Rat) + 1) ((0 : Rat) + 1 + 9) =
      [1, 2, 3, 4] := by
    have e1 : ((0 : Rat) + 1) = (((1 : Nat)) : Rat) := by norm_num
    have e2 : ((0 : Rat) + 1 + 9) = (((10 : Nat)) : Rat) := by norm_num
    rw [e2, e1, jsSlice_natCast]
    decide
  rw [hs]
  rfl

theorem jsIndex_intCast {α : Type} (l : List α) (z : Int) :
    jsIndex l ((z : Int) : Rat) = if 0 ≤ z then l.get? z.toNat else none := by
  rw [jsIndex, Rat.num_intCast, Rat.den_intCast]
  by_cases hz : 0 ≤ z
  · rw [if_pos ⟨rfl, hz⟩, if_pos hz]
  · rw [if_neg (fun h => hz h.2), if_neg hz]

/-- C7 amended: with a positive tile size and any integer margins, extraction
fails with the wrapped sub-image error exactly when the requested rows leave
the grid bounds — the `yMargin` is negative, or `tileSize.height + yMargin`
exceeds the grid's row count — and succeeds (possibly with column-truncated
rows) whenever the requested rows are in range: column overruns are never
detected. -/
theorem subimage_row_overrun {α : Type} (grid : List (List α)) (tx : Rat)
    (tn : Nat) (ym : Int) (htx : 0 < tx) (htn : 0 < tn) (xm : Rat) :
    ((grid.length : Int) < ym + tn ∨ ym < 0 →
      subImage grid tx (tn : Rat) xm ((ym : Int) : Rat) = .error .subImageError) ∧
    (0 ≤ ym → ym + tn ≤ (grid.length : Int) →
      ∃ out, subImage grid tx (tn : Rat) xm ((ym : Int) : Rat) = .ok out) := by
  have hval : ¬¬(0 < tx ∧ 0 < (tn : Rat)) :=
    not_not_intro ⟨htx, by exact_mod_cast htn⟩
  have hiters : (jsCeil ((tn : Nat) : Rat)).toNat = tn := by
    rw [jsCeil_natCast]
    exact Int.toNat_natCast tn
  constructor
  · intro hbad
    rw [subImage, if_neg hval, hiters]
    apply subImageLoop_err
    by_cases hneg : ym < 0
    · refine ⟨0, by omega, ?_⟩
      have hc : ((ym : Int) : Rat) + ((0 : Nat) : Rat) = ((ym : Int) : Rat) := by
        push_cast
        ring
      rw [hc, jsIndex_intCast, if_neg (by omega)]
    · have hym0 : 0 ≤ ym := by omega
      have hover : (grid.length : Int) < ym + tn := by
        rcases hbad with h | h
        · exact h
        · omega
      have hymyn : ((ym : Int) : Rat) = ((ym.toNat : Nat) : Rat) := by
        rw [← Int.cast_natCast (R := Rat), Int.toNat_of_nonneg hym0]
      refine ⟨grid.length - ym.toNat, by omega, ?_⟩
      have hc : ((ym : Int) : Rat) + ((grid.length - ym.toNat : Nat) : Rat) =
          (((ym.toNat + (grid.length - ym.toNat)) : Nat) : Rat) := by
        rw [hymyn]
        push_cast
        ring
      rw [hc, jsIndex_natCast, List.get?_eq_none.mpr (by omega)]
  · intro hym0 hin
    rw [subImage, if_neg hval, hiters]
    have hymyn : ((ym : Int) : Rat) = ((ym.toNat : Nat) : Rat) := by
      rw [← Int.cast_natCast (R := Rat), Int.toNat_of_nonneg hym0]
    rw [hymyn]
    exact ⟨_, subImageLoop_ok grid tx xm ((ym.toNat : Nat) : Rat)
      (fun t => grid.getD (ym.toNat + t) []) tn
      (fun t ht => jsIndex_inbounds grid ym.toNat t (by omega)) [Sum.inl 0]⟩

/-- Witness for C7's amended theorem: a 1-row grid with a requested tile
height of 2 errors, a negative `yMargin` of -1 errors, and height 1 at
`yMargin` 0 succeeds. -/
theorem subimage_row_overrun_witness :
    subImage (α := Nat) [[0, 1, 2]] 1 ((2 : Nat) : Rat) 0 (((0 : Int)) : Rat) =
      .error .subImageError ∧
    subImage (α := Nat) [[0, 1, 2]] 1 ((1 : Nat) : Rat) 0 (((-1 : Int)) : Rat) =
      .error .subImageError ∧
    ∃ out, subImage (α := Nat) [[0, 1, 2]] 1 ((1 : Nat) : Rat) 0
      (((0 : Int)) : Rat) = .ok out := by
  refine ⟨?h1, ?h2, ?h3⟩
  · exact (subimage_row_overrun [[0, 1, 2]] 1 2 0 (by norm_num) (by decide) 0).1
      (Or.inl (by decide))
  · exact (subimage_row_overrun [[0, 1, 2]] 1 1 (-1) (by norm_num) (by decide) 0).1
      (Or.inr (by decide))
  · exact (subimage_row_overrun [[0, 1, 2]] 1 1 0 (by norm_num) (by decide) 0).2
      (by decide) (by decide)

/-- Counterexample for C8: a fractional tile width of `5/2` passes the
validation (the source checks only `typeof === 'number'` and positivity, never
integrality) and extraction proceeds, returning a sliced row. -/
theorem subimage_fractional_tile_counterexample :
    subImage (α := Nat) [[10, 20, 30, 40]] (5 / 2) 1 0 0 =
      .ok [Sum.inl 0, Sum.inr [20, 30]] := by
  rw [subImage, if_neg (not_not_intro ⟨by norm_num, by norm_num⟩)]
  have hc : (jsCeil (1 : Rat)).toNat = 1 := by
    rw [jsCeil, Rat.num_one, Rat.den_one]
    decide
  rw [hc, show List.range 1 = [0] from rfl]
  simp only [List.foldlM_cons, List.foldlM_nil]
  have hidx : jsIndex ([[10, 20, 30, 40]] : List (List Nat))
      ((0 : Rat) + ((0 : Nat) : Rat)) = some [10, 20, 30, 40] := by
    have h0 : (0 : Rat) + ((0 : Nat) : Rat) = (((0 : Nat)) : Rat) := by norm_num
    rw [h0, jsIndex_natCast]
    rfl
  rw [subImageStep_some _ _ _ _ _ _ _ hidx]
  have hs : jsSlice ([10, 20, 30, 40] : List Nat) ((0 : Rat) + 1)
      ((0 : Rat) + 1 + 5 / 2) = [20, 30] := by
    have htr1 : jsTrunc ((0 : Rat) + 1) = 1 := by
      rw [jsTrunc, (by norm_num : ((0 : Rat) + 1).num = 1),
        (by norm_num : ((0 : Rat) + 1).den = 1)]
      decide
    have htr2 : jsTrunc ((0 : Rat) + 1 + 5 / 2) = 3 := by
      rw [jsTrunc, (by norm_num : ((0 : Rat) + 1 + 5 / 2).num = 7),
        (by norm_num : ((0 : Rat) + 1 + 5 / 2).den = 2)]
      decide
    rw [jsSlice]
    simp only [jsSliceBound, htr1, htr2]
    rw [if_neg (by decide), if_neg (by decide)]
    decide
  rw [hs]
  rfl

/-- C8 amended: within number-typed arguments, extraction fails with the
invalid-tile-size error exactly when the tile width and height are not both
positive (integrality is never checked), and it never fails with the
invalid-margins error (the margin check tests only that the margins are
numbers, which the embedding's types guarantee). -/
theorem subimage_validation {α : Type} (grid : List (List α))
    (tx ty xm ym : Rat) :
    ((subImage grid tx ty xm ym = .error .invalidTileSize) ↔ ¬(0 < tx ∧ 0 < ty)) ∧
    ¬(subImage grid tx ty xm ym = .error .invalidMargins) := by
  by_cases hv : 0 < tx ∧ 0 < ty
  · rw [subImage, if_neg (not_not_intro hv)]
    rcases subImageLoop_ok_or_err grid tx xm ym (List.range (jsCeil ty).toNat)
        [Sum.inl 0] with ⟨v, hres⟩ | hres <;> rw [hres] <;> simp [hv]
  · rw [subImage, if_pos hv]
    simp [hv]

/-- Counterexample for C9: with `xMargin = -2` and tile width 2 on a 1-row
grid of five entries, extraction succeeds but the returned row is EMPTY —
`slice(-1, 1)` resolves its end bound below its end-relative start — so the
caller receives no pixel groups at all, not groups taken relative to the end
of the source row. -/
theorem subimage_negative_margin_counterexample :
    subImage (α := Nat) [[0, 1, 2, 3, 4]] ((2 : Nat) : Rat) ((1 : Nat) : Rat)
      (-((2 : Nat) : Rat)) ((0 : Nat) : Rat) = .ok [Sum.inl 0, Sum.inr []] := by
  rw [subImage, if_neg (not_not_intro ⟨by norm_num, by norm_num⟩)]
  have hiters : (jsCeil ((1 : Nat) : Rat)).toNat = 1 := by
    rw [jsCeil_natCast]
    exact Int.toNat_natCast 1
  rw [hiters, show List.range 1 = [0] from rfl]
  simp only [List.foldlM_cons, List.foldlM_nil]
  have hidx : jsIndex ([[0, 1, 2, 3, 4]] : List (List Nat))
      (((0 : Nat) : Rat) + ((0 : Nat) : Rat)) = some [0, 1, 2, 3, 4] := by
    have h0 : ((0 : Nat) : Rat) + ((0 : Nat) : Rat) = (((0 : Nat)) : Rat) := by
      norm_num
    rw [h0, jsIndex_natCast]
    rfl
  rw [subImageStep_some _ _ _ _ _ _ _ hidx]
  have hs : jsSlice ([0, 1, 2, 3, 4] : List Nat) (-((2 : Nat) : Rat) + 1)
      (-((2 : Nat) : Rat) + 1 + ((2 : Nat) : Rat)) = [] := by
    have e2 : (-((2 : Nat) : Rat) + 1 + ((2 : Nat) : Rat)) =
        (((1 : Int)) : Rat) := by push_cast; norm_num
    have e1 : (-((2 : Nat) : Rat) + 1) = (((-1 : Int)) : Rat) := by
      push_cast
      norm_num
    rw [jsSlice, e2, e1]
    simp only [jsSliceBound, jsTrunc_intCast]
    rw [if_pos (by decide), if_neg (by decide)]
    decide
  rw [hs]
  rfl

/-- C9 amended: with a positive integer tile size, a row window inside the
grid and a negative integer `xMargin = -m ≤ -2`, extraction raises no error at
all; when moreover `w + 2 ≤ m` and every accessed row has at least `m - 1`
entries, every returned row is exactly the slice of `w` pixel entries starting
`m - 1` entries from the END of the source row — data from the wrong columns,
silently.  (Outside that regime extraction still succeeds, but rows can be
empty or clamped to the row start instead of end-relative.) -/
theorem subimage_negative_margin {α : Type} (grid : List (List α))
    (w hgt m yn : Nat) (hw : 1 ≤ w) (hh : 1 ≤ hgt) (hm : 2 ≤ m)
    (hin : yn + hgt ≤ grid.length) :
    (∃ out, subImage grid (w : Rat) (hgt : Rat) (-(m : Rat)) (yn : Rat) =
      .ok out) ∧
    (w + 2 ≤ m →
      (∀ t : Nat, t < hgt → m - 1 ≤ (grid.getD (yn + t) []).length) →
      subImage grid (w : Rat) (hgt : Rat) (-(m : Rat)) (yn : Rat) =
        .ok (Sum.inl 0 :: (List.range hgt).map fun (t : Nat) =>
          Sum.inr (((grid.getD (yn + t) []).drop
            ((grid.getD (yn + t) []).length - (m - 1))).take w))) := by
  have hval : ¬¬(0 < (w : Rat) ∧ 0 < (hgt : Rat)) :=
    not_not_intro ⟨by exact_mod_cast hw, by exact_mod_cast hh⟩
  have hiters : (jsCeil ((hgt : Nat) : Rat)).toNat = hgt := by
    rw [jsCeil_natCast]
    exact Int.toNat_natCast hgt
  have heq : subImage grid (w : Rat) (hgt : Rat) (-(m : Rat)) (yn : Rat) =
      .ok ([Sum.inl 0] ++ (List.range hgt).map fun (t : Nat) =>
        Sum.inr (jsSlice (grid.getD (yn + t) []) (-(m : Rat) + 1)
          (-(m : Rat) + 1 + (w : Rat)))) := by
    rw [subImage, if_neg hval, hiters]
    exact subImageLoop_ok grid (w : Rat) (-(m : Rat)) (yn : Rat)
      (fun t => grid.getD (yn + t) []) hgt
      (fun t ht => jsIndex_inbounds grid yn t (by omega)) [Sum.inl 0]
  constructor
  · exact ⟨_, heq⟩
  · intro hwm hrowlen
    rw [heq, List.singleton_append]
    exact congrArg Except.ok (congrArg (List.cons (Sum.inl 0))
      (List.map_congr_left (fun t ht => by
        rw [List.mem_range] at ht
        exact congrArg Sum.inr (jsSlice_neg_margin _ m w hm hwm (hrowlen t ht)))))

/-- Witness for C9's amended theorem: one row of five entries, tile 2 by 1,
`xMargin = -4`: extraction succeeds and the returned row is the two pixel
entries three-from-the-end — wrong columns, no error. -/
theorem subimage_negative_margin_witness :
    (∃ out, subImage (α := Nat ⊕ List Nat)
      [[Sum.inl 0, Sum.inr [1, 1, 1, 1], Sum.inr [2, 2, 2, 2],
        Sum.inr [3, 3, 3, 3], Sum.inr [4, 4, 4, 4]]]
      ((2 : Nat) : Rat) ((1 : Nat) : Rat) (-((4 : Nat) : Rat)) ((0 : Nat) : Rat) =
      .ok out) ∧
    subImage (α := Nat ⊕ List Nat)
      [[Sum.inl 0, Sum.inr [1, 1, 1, 1], Sum.inr [2, 2, 2, 2],
        Sum.inr [3, 3, 3, 3], Sum.inr [4, 4, 4, 4]]]
      ((2 : Nat) : Rat) ((1 : Nat) : Rat) (-((4 : Nat) : Rat)) ((0 : Nat) : Rat) =
      .ok [Sum.inl 0, Sum.inr [Sum.inr [2, 2, 2, 2], Sum.inr [3, 3, 3, 3]]] := by
  have h := subimage_negative_margin
    [[Sum.inl 0, Sum.inr [1, 1, 1, 1], Sum.inr [2, 2, 2, 2],
      Sum.inr [3, 3, 3, 3], Sum.inr [4, 4, 4, 4]]]
    2 1 4 0 (by decide) (by decide) (by decide) (by decide)
  exact ⟨h.1, (h.2 (by decide) (by decide)).trans (by decide)⟩
